import Mathlib

/-!
Verification of the `appsscript-boot` dispatch and dependency-resolution
engine against its specification.

The development shallowly embeds the relevant source functions:

* `pathMatch` (src/src/utils/pathMatch.ts) — the path-template matcher;
* the route-selection step of `App.do` (README source listing) — linear scan;
* `createResponse` (src/src/utils/createResponse.ts) and the outcome shape
  of `App.do` — 404 / 500 / success packaging;
* `resolve` (src/src/utils/resolve.ts) — the recursive dependency resolver,
  with the two `Map`s embedded as association lists and JS object identity
  embedded as a construction counter;
* `checkEventFilters` (src/src/utils/checkEventFilters.ts) — the event
  filter predicate, with JS `RegExp.test` embedded as an abstract
  `String → Bool` function;
* the controller loop of `App.on` and the singleton `App` constructor
  (README source listing).

External collaborators (`decodeURI`, `normalize` from appsscript-utils, the
regular-expression engine, the platform output services) are passed in as
function parameters, never fixed.
-/

namespace Boot

/-- The HTTP verbs of the `RequestMethod` enum.  The enum's own source file
is not in the snapshot; its members are taken from their uses in the source
(`createRequest`, `createResponse`, the decorator factories). -/
inductive RequestMethod
  | GET
  | POST
  | PUT
  | DELETE
  | PATCH
  | OPTIONS
  | HEAD
deriving DecidableEq, Repr

/-! ## Path matcher (src/src/utils/pathMatch.ts)

JS `template.split("/")` with the one-character separator `"/"` is embedded
as a character-level split of the string; `filter(Boolean)` drops the empty
segments. -/

/-- Character-level embedding of JS `String.prototype.split("/")`. -/
def splitSlashAux : List Char → List Char → List (List Char)
  | [], acc => [acc.reverse]
  | c :: rest, acc =>
    if c = '/' then acc.reverse :: splitSlashAux rest []
    else splitSlashAux rest (c :: acc)

/-- Embedding of `s.split("/").filter(Boolean)`: split on `/` and drop empty segments. -/
def splitSegs (s : String) : List (List Char) :=
  (splitSlashAux s.data []).filter (fun seg => !seg.isEmpty)

/-- Embedding of `part.startsWith("{") && part.endsWith("}")` on one segment. -/
def isWildcard (seg : List Char) : Bool :=
  seg.head? == some '{' && seg.getLast? == some '}'

/-- Embedding of `pathMatch(template, actual)`:
fail fast on segment-count mismatch, then `every` segment is a wildcard or
exactly equal. -/
def pathMatch (template actual : String) : Bool :=
  let tplParts := splitSegs template
  let actParts := splitSegs actual
  if tplParts.length != actParts.length then
    false
  else
    (tplParts.zip actParts).all fun pair => isWildcard pair.1 || pair.1 == pair.2

/-! Sanity examples for the matcher (mirroring the spec's mock property). -/

example : pathMatch "/users/{id}" "/users/42" = true := by decide
example : pathMatch "/users/{id}" "/users/42/extra" = false := by decide
example : pathMatch "/users/{id}" "/users" = false := by decide
example : pathMatch "/a/b" "/a/c" = false := by decide
example : pathMatch "a/b/" "/a/b" = true := by decide

/-- Taking `List.all` over a `zip` of equal-length lists is the positionwise
conjunction. -/
theorem zip_all_eq_true_iff_get {α : Type} (R : α → α → Bool) :
    ∀ (l1 l2 : List α), l1.length = l2.length →
      (((l1.zip l2).all fun pair => R pair.1 pair.2) = true ↔
        ∀ i (h1 : i < l1.length) (h2 : i < l2.length),
          R (l1.get ⟨i, h1⟩) (l2.get ⟨i, h2⟩) = true) := by
  intro l1
  induction l1 with
  | nil =>
    intro l2 hl
    simp
  | cons a t ih =>
    intro l2 hl
    cases l2 with
    | nil => simp at hl
    | cons b t2 =>
      simp only [List.length_cons, Nat.succ.injEq] at hl
      simp only [List.zip_cons_cons, List.all_cons, Bool.and_eq_true]
      rw [ih t2 hl]
      constructor
      · rintro ⟨hab, hrest⟩ i h1 h2
        cases i with
        | zero => exact hab
        | succ j =>
          exact hrest j (Nat.lt_of_succ_lt_succ h1) (Nat.lt_of_succ_lt_succ h2)
      · intro h
        refine ⟨h 0 (Nat.succ_pos _) (Nat.succ_pos _), ?_⟩
        intro j hj1 hj2
        exact h (j + 1) (Nat.succ_lt_succ hj1) (Nat.succ_lt_succ hj2)

/-- Claim C2: `pathMatch(template, actual)` returns true if and only if,
after splitting both strings on `/` and discarding empty segments, the two
segment lists have equal length and every template segment either is
wrapped in `{` and `}` (accepted unconditionally) or is exactly equal to
the actual segment at the same position; in particular `/a/b` never
matches `/a/c`. -/
theorem pathMatch_spec :
    (∀ template actual : String,
      pathMatch template actual = true ↔
        (splitSegs template).length = (splitSegs actual).length ∧
        ∀ i (h1 : i < (splitSegs template).length)
            (h2 : i < (splitSegs actual).length),
          isWildcard ((splitSegs template).get ⟨i, h1⟩) = true ∨
          (splitSegs template).get ⟨i, h1⟩ = (splitSegs actual).get ⟨i, h2⟩) ∧
    pathMatch "/a/b" "/a/c" = false := by
  constructor
  · intro template actual
    unfold pathMatch
    by_cases hlen : (splitSegs template).length = (splitSegs actual).length
    · have hbne : ((splitSegs template).length != (splitSegs actual).length) = false := by
        simpa using hlen
      simp only [hbne, Bool.false_eq_true, if_false]
      rw [zip_all_eq_true_iff_get (fun a b => isWildcard a || a == b) _ _ hlen]
      constructor
      · intro h
        refine ⟨hlen, ?_⟩
        intro i h1 h2
        have := h i h1 h2
        rcases Bool.or_eq_true_iff.mp this with hw | he
        · exact Or.inl hw
        · exact Or.inr (by simpa using he)
      · rintro ⟨-, h⟩ i h1 h2
        rcases h i h1 h2 with hw | he
        · exact Bool.or_eq_true_iff.mpr (Or.inl hw)
        · exact Bool.or_eq_true_iff.mpr (Or.inr (by simpa using he))
    · have hbne : ((splitSegs template).length != (splitSegs actual).length) = true := by
        simpa using hlen
      simp only [hbne, if_true]
      constructor
      · intro h
        exact absurd h (by simp)
      · rintro ⟨h, -⟩
        exact absurd h hlen
  · decide

/-! ## Route table and dispatcher route selection (App.do) -/

/-- Class references (`Newable`) are embedded as numeric identifiers. -/
abbrev ClassId := Nat

/-- One Route Record (`RouteMetadata` in src/src/types/RouteMetadata.ts). -/
structure RouteMetadata where
  method : RequestMethod
  path : String
  handler : String
  controller : ClassId
deriving DecidableEq, Repr

/-- The linear scan of `App.do`:
`this._routes.find(route => route.method === request.method && pathMatch(route.path, pathname))`. -/
def routeScan (routes : List RouteMetadata) (m : RequestMethod) (pathname : String) :
    Option RouteMetadata :=
  routes.find? fun route => route.method == m && pathMatch route.path pathname

/-- The route-selection step of `App.do`: the scan runs only when
`request.url.pathname` is truthy (present and non-empty), on the
`decodeURI`-decoded pathname; otherwise the route stays `null`.
`decode` is the external `decodeURI`. -/
def selectRoute (routes : List RouteMetadata) (m : RequestMethod)
    (rawPathname : Option String) (decode : String → String) :
    Option RouteMetadata :=
  match rawPathname with
  | none => none
  | some p => if p == "" then none else routeScan routes m (decode p)

/-- Helper: `List.find?` returns `some r` exactly when `r` is the element at the
first position satisfying the predicate. -/
theorem find?_eq_some_iff_first {α : Type} (p : α → Bool) :
    ∀ (l : List α) (r : α),
      l.find? p = some r ↔
        ∃ i : Fin l.length, l.get i = r ∧ p r = true ∧
          ∀ j : Fin l.length, j.val < i.val → p (l.get j) = false := by
  intro l
  induction l with
  | nil =>
    intro r
    constructor
    · intro h
      simp at h
    · rintro ⟨i, -⟩
      exact absurd i.isLt (by simp)
  | cons a t ih =>
    intro r
    by_cases hpa : p a = true
    · simp only [List.find?_cons_of_pos _ hpa, Option.some.injEq]
      constructor
      · rintro rfl
        refine ⟨⟨0, Nat.succ_pos _⟩, rfl, hpa, ?_⟩
        intro j hj
        exact absurd hj (Nat.not_lt_zero _)
      · rintro ⟨i, hget, -, hfirst⟩
        cases i with
        | mk iv hiv =>
          cases iv with
          | zero => exact hget
          | succ n =>
            have h0 : p a = false := hfirst ⟨0, Nat.succ_pos _⟩ (Nat.succ_pos _)
            rw [hpa] at h0
            exact absurd h0 (by simp)
    · have hpa' : p a = false := by
        cases h : p a
        · rfl
        · exact absurd h hpa
      simp only [List.find?_cons_of_neg _ hpa, ih]
      constructor
      · rintro ⟨i, hget, hpr, hfirst⟩
        refine ⟨⟨i.val + 1, Nat.succ_lt_succ i.isLt⟩, hget, hpr, ?_⟩
        rintro ⟨jv, hjv⟩ hj
        cases jv with
        | zero => exact hpa'
        | succ n =>
          exact hfirst ⟨n, Nat.lt_of_succ_lt_succ hjv⟩ (Nat.lt_of_succ_lt_succ hj)
      · rintro ⟨i, hget, hpr, hfirst⟩
        cases i with
        | mk iv hiv =>
          cases iv with
          | zero =>
            have ha : a = r := hget
            rw [← ha] at hpr
            exact absurd hpr hpa
          | succ n =>
            refine ⟨⟨n, Nat.lt_of_succ_lt_succ hiv⟩, hget, hpr, ?_⟩
            intro j hj
            exact hfirst ⟨j.val + 1, Nat.succ_lt_succ j.isLt⟩ (Nat.succ_lt_succ hj)

/-- The predicate of the `App.do` scan, spelled propositionally. -/
theorem routePred_eq_true {route : RouteMetadata} {m : RequestMethod} {p : String} :
    (route.method == m && pathMatch route.path p) = true ↔
      route.method = m ∧ pathMatch route.path p = true := by
  simp [Bool.and_eq_true]

/-- Claim C1: for every route table and every request with a truthy
pathname, the dispatcher selects a route iff some Route Record has a verb
equal to the request's effective verb and a path template that structurally
matches the decoded request path; when several qualify, the first record in
table order is selected (no specificity scoring). -/
theorem selectRoute_spec (decode : String → String) (routes : List RouteMetadata)
    (m : RequestMethod) (p : String) (hp : p ≠ "") :
    (∀ r, selectRoute routes m (some p) decode = some r ↔
      ∃ i : Fin routes.length, routes.get i = r ∧
        (r.method = m ∧ pathMatch r.path (decode p) = true) ∧
        ∀ j : Fin routes.length, j.val < i.val →
          ¬((routes.get j).method = m ∧ pathMatch (routes.get j).path (decode p) = true)) ∧
    (selectRoute routes m (some p) decode = none ↔
      ∀ r ∈ routes, ¬(r.method = m ∧ pathMatch r.path (decode p) = true)) := by
  have hsel : selectRoute routes m (some p) decode = routeScan routes m (decode p) := by
    have hpe : (p == "") = false := by simpa using hp
    simp only [selectRoute, hpe, Bool.false_eq_true, if_false]
  constructor
  · intro r
    rw [hsel]
    unfold routeScan
    rw [find?_eq_some_iff_first]
    constructor
    · rintro ⟨i, hget, hpr, hfirst⟩
      refine ⟨i, hget, routePred_eq_true.mp hpr, ?_⟩
      intro j hj hcon
      have := hfirst j hj
      rw [routePred_eq_true.mpr hcon] at this
      exact absurd this (by simp)
    · rintro ⟨i, hget, hpr, hfirst⟩
      refine ⟨i, hget, routePred_eq_true.mpr hpr, ?_⟩
      intro j hj
      cases h : ((routes.get j).method == m && pathMatch (routes.get j).path (decode p)) with
      | false => rfl
      | true => exact absurd (routePred_eq_true.mp h) (hfirst j hj)
  · rw [hsel]
    unfold routeScan
    rw [List.find?_eq_none]
    constructor
    · intro h r hr hcon
      have := h r hr
      exact this (routePred_eq_true.mpr hcon)
    · intro h r hr hcon
      exact h r hr (routePred_eq_true.mp hcon)

/-- Witness for C1: a two-route table where both records match `GET /users/42`
and the first one in table order is selected. -/
theorem selectRoute_spec_witness :
    selectRoute
        [⟨RequestMethod.GET, "/users/{id}", "getUser", 0⟩,
         ⟨RequestMethod.GET, "/users/42", "getUser42", 1⟩]
        RequestMethod.GET (some "/users/42") (fun s => s) =
      some ⟨RequestMethod.GET, "/users/{id}", "getUser", 0⟩ := by
  have h := (selectRoute_spec (fun s => s)
      [⟨RequestMethod.GET, "/users/{id}", "getUser", 0⟩,
       ⟨RequestMethod.GET, "/users/42", "getUser42", 1⟩]
      RequestMethod.GET "/users/42" (by decide)).1
      ⟨RequestMethod.GET, "/users/{id}", "getUser", 0⟩
  refine h.mpr ⟨⟨0, by decide⟩, by decide, by decide, ?_⟩
  intro j hj
  exact absurd hj (Nat.not_lt_zero _)

/-! ## Response packaging (createResponse) and dispatcher outcomes (App.do) -/

/-- JavaScript runtime values, as far as response bodies are concerned. -/
inductive JsValue
  | null
  | str (s : String)
  | num (n : Int)
  | bool (b : Bool)
  | obj (fields : List (String × JsValue))
  | arr (elems : List JsValue)

/-- The `HttpStatus` numeric enum.  Its source file is referenced from
src/src/types/HttpResponse.ts but is not in the snapshot; the entries are
the members used by the source (`OK`, `CREATED`, `NOT_FOUND`,
`INTERNAL_SERVER_ERROR`) with their standard HTTP numbers. -/
def httpStatusEntries : List (String × Nat) :=
  [("OK", 200), ("CREATED", 201), ("NOT_FOUND", 404), ("INTERNAL_SERVER_ERROR", 500)]

/-- Structured HTTP response (src/src/types/HttpResponse.ts). -/
structure HttpResponse where
  headers : List (String × String)
  ok : Bool
  status : Nat
  statusText : String
  body : JsValue

/-- Embedding of `createResponse(request, status, headers, data)`
(src/src/utils/createResponse.ts): default status is 200 for
GET/HEAD/OPTIONS and 201 otherwise, `ok` is `200 <= status < 300`, and a
non-ok response wraps the data in an `error` object. -/
def createResponse (reqMethod : RequestMethod) (status : Option Nat)
    (headers : List (String × String)) (data : JsValue) : HttpResponse :=
  let resolvedStatus :=
    match status with
    | some s => s
    | none =>
      if reqMethod == RequestMethod.GET || reqMethod == RequestMethod.HEAD
          || reqMethod == RequestMethod.OPTIONS then 200 else 201
  let statusText :=
    match httpStatusEntries.find? fun entry => entry.2 == resolvedStatus with
    | some entry => entry.1
    | none => "UNKNOWN_STATUS"
  let ok := decide (200 ≤ resolvedStatus) && decide (resolvedStatus < 300)
  { headers := headers
    ok := ok
    status := resolvedStatus
    statusText := statusText
    body := if ok then data else JsValue.obj [("error", data)] }

/-- The outcome of one `App.do` invocation, at the `HttpResponse` level.
`handlerRun` stands for everything the `try` block does after the route is
found — controller resolution, body parsing, parameter binding and handler
invocation — and produces either the handler's return value or a thrown
error (already stringified, as `String(err)` in the `catch`).  The function
is total: every invocation yields a response. -/
def appDo (routes : List RouteMetadata) (m : RequestMethod)
    (rawPathname : Option String) (decode : String → String)
    (handlerRun : RouteMetadata → Except String JsValue) : HttpResponse :=
  match selectRoute routes m rawPathname decode with
  | none => createResponse m (some 404) [] JsValue.null
  | some route =>
    match handlerRun route with
    | Except.ok result => createResponse m none [] result
    | Except.error err => createResponse m (some 500) [] (JsValue.str err)

/-- Claim C4: whenever the route is found, any exception thrown by the
matched handler or by any step after request construction is caught and
becomes a 500 Internal Server Error response carrying the stringified
error (wrapped in the error envelope); `appDo` is total, so no exception
propagates out of the dispatcher. -/
theorem appDo_internal_error (routes : List RouteMetadata) (m : RequestMethod)
    (rawPathname : Option String) (decode : String → String)
    (handlerRun : RouteMetadata → Except String JsValue)
    (route : RouteMetadata) (err : String)
    (hroute : selectRoute routes m rawPathname decode = some route)
    (hthrow : handlerRun route = Except.error err) :
    appDo routes m rawPathname decode handlerRun =
      createResponse m (some 500) [] (JsValue.str err) ∧
    (appDo routes m rawPathname decode handlerRun).status = 500 ∧
    (appDo routes m rawPathname decode handlerRun).statusText = "INTERNAL_SERVER_ERROR" ∧
    (appDo routes m rawPathname decode handlerRun).ok = false ∧
    (appDo routes m rawPathname decode handlerRun).body =
      JsValue.obj [("error", JsValue.str err)] := by
  have hmain : appDo routes m rawPathname decode handlerRun =
      createResponse m (some 500) [] (JsValue.str err) := by
    simp only [appDo, hroute, hthrow]
  refine ⟨hmain, ?_, ?_, ?_, ?_⟩ <;> rw [hmain] <;> rfl

/-- Witness for C4: a concrete one-route table whose handler throws; the
dispatcher answers with the 500 error-envelope response. -/
theorem appDo_internal_error_witness :
    appDo [⟨RequestMethod.GET, "/x", "h", 0⟩] RequestMethod.GET (some "/x")
        (fun s => s) (fun _ => Except.error "Error: boom") =
      createResponse RequestMethod.GET (some 500) [] (JsValue.str "Error: boom") :=
  (appDo_internal_error [⟨RequestMethod.GET, "/x", "h", 0⟩] RequestMethod.GET
    (some "/x") (fun s => s) (fun _ => Except.error "Error: boom")
    ⟨RequestMethod.GET, "/x", "h", 0⟩ "Error: boom" (by decide) rfl).1

/-- Counterexample to claim C5 as stated: with no matching route the
dispatcher's 404 response does not have an empty body — `createResponse`
wraps the (null) data of every non-2xx response in an `{ error: ... }`
envelope, so the body is `{ error: null }`, not empty. -/
theorem appDo_not_found_counterexample :
    (appDo [] RequestMethod.GET (some "/missing") (fun s => s)
        (fun _ => Except.ok JsValue.null)).status = 404 ∧
    (appDo [] RequestMethod.GET (some "/missing") (fun s => s)
        (fun _ => Except.ok JsValue.null)).body ≠ JsValue.null ∧
    (appDo [] RequestMethod.GET (some "/missing") (fun s => s)
        (fun _ => Except.ok JsValue.null)).body =
      JsValue.obj [("error", JsValue.null)] := by
  refine ⟨rfl, ?_, rfl⟩
  intro h
  exact JsValue.noConfusion h

/-- Claim C5 (amended): for every request for which no Route Record
matches, the dispatcher produces a 404 Not Found response whose body is the
error envelope `{ error: null }` (it carries no data), and the invocation
terminates by returning that response — `appDo` is total, so no exception
is raised. -/
theorem appDo_not_found (routes : List RouteMetadata) (m : RequestMethod)
    (rawPathname : Option String) (decode : String → String)
    (handlerRun : RouteMetadata → Except String JsValue)
    (hnone : selectRoute routes m rawPathname decode = none) :
    appDo routes m rawPathname decode handlerRun =
      createResponse m (some 404) [] JsValue.null ∧
    (appDo routes m rawPathname decode handlerRun).status = 404 ∧
    (appDo routes m rawPathname decode handlerRun).statusText = "NOT_FOUND" ∧
    (appDo routes m rawPathname decode handlerRun).ok = false ∧
    (appDo routes m rawPathname decode handlerRun).body =
      JsValue.obj [("error", JsValue.null)] := by
  have hmain : appDo routes m rawPathname decode handlerRun =
      createResponse m (some 404) [] JsValue.null := by
    simp only [appDo, hnone]
  refine ⟨hmain, ?_, ?_, ?_, ?_⟩ <;> rw [hmain] <;> rfl

/-- Witness for C5 (amended): the empty route table yields the 404
error-envelope response for a concrete GET request. -/
theorem appDo_not_found_witness :
    appDo [] RequestMethod.GET (some "/api/sheet/active-range") (fun s => s)
        (fun _ => Except.ok JsValue.null) =
      createResponse RequestMethod.GET (some 404) [] JsValue.null :=
  (appDo_not_found [] RequestMethod.GET (some "/api/sheet/active-range")
    (fun s => s) (fun _ => Except.ok JsValue.null) rfl).1

/-! ## Dependency resolver (src/src/utils/resolve.ts)

The two `Map<Newable, unknown>` caches are embedded as association lists
from class ids to `Option Nat`: a key present with `none` is a class
registered with a `null` instance (as the `App` constructor does), a key
present with `some i` holds the instance with creation id `i`.  JS
reference equality of instances is embedded by drawing each constructed
instance's id from a counter; the state also logs every construction and
every warning, in order.  JS unbounded recursion is embedded with fuel:
running out of fuel is the model of the platform's stack overflow. -/

/-- Everything `resolve` reads about a class: `design:paramtypes`
(`none` entries are unresolvable/absent types), the explicit
`@Inject` token overrides keyed by parameter index (a `none` token is a
falsy token), and the `isController` / `isInjectable` watermarks. -/
structure ClassDef where
  paramTypes : List (Option ClassId)
  injectTokens : List (Nat × Option ClassId)
  isCtrl : Bool
  isInj : Bool

/-- Embedding of `tokenToResolve` for one constructor position:
`injectDefinition ? injectDefinition.token : type`. -/
def tokenAt (cd : ClassDef) (i : Nat) (ty : Option ClassId) : Option ClassId :=
  match cd.injectTokens.find? fun pair => pair.1 == i with
  | some pair => pair.2
  | none => ty

/-- The `tokenToResolve` list over all constructor positions of a class. -/
def depTokens (cd : ClassDef) : List (Option ClassId) :=
  cd.paramTypes.enum.map fun pair => tokenAt cd pair.1 pair.2

/-- The mutable resolver state: the two caches, the instance-id counter,
and the construction/warning logs. -/
structure DIState where
  controllers : List (ClassId × Option Nat)
  providers : List (ClassId × Option Nat)
  nextId : Nat
  constructions : List ClassId
  warnings : List ClassId
deriving DecidableEq, Repr

/-- Embedding of `Map.prototype.get` on an association list (`none` = key absent). -/
def alookup (m : List (ClassId × Option Nat)) (c : ClassId) : Option (Option Nat) :=
  match m.find? fun pair => pair.1 == c with
  | some pair => some pair.2
  | none => none

/-- Embedding of `Map.prototype.set`: overwrite in place, or append a new key. -/
def aset (m : List (ClassId × Option Nat)) (c : ClassId) (v : Option Nat) :
    List (ClassId × Option Nat) :=
  match m with
  | [] => [(c, v)]
  | pair :: rest => if pair.1 = c then (c, v) :: rest else pair :: aset rest c v

/-- The cache check at the top of `resolve`: first the controllers map,
then the providers map, in each case only a truthy (non-null) instance
counts as a hit. -/
def cacheLookup (s : DIState) (c : ClassId) : Option Nat :=
  match alookup s.controllers c with
  | some (some i) => some i
  | _ =>
    match alookup s.providers c with
    | some (some i) => some i
    | _ => none

/-- The left-to-right `designParamTypes.map(...)` walk: a falsy token
yields an `undefined` entry (`none`) without recursing; a present token is
resolved recursively through `recfn`, and a thrown error aborts the walk
and propagates, keeping all cache mutations made so far. -/
def resolveDeps (recfn : DIState → ClassId → DIState × Except String Nat) :
    DIState → List (Option ClassId) → DIState × Except String (List (Option Nat))
  | s, [] => (s, Except.ok [])
  | s, none :: rest =>
    match resolveDeps recfn s rest with
    | (s2, Except.ok ds) => (s2, Except.ok (none :: ds))
    | (s2, Except.error e) => (s2, Except.error e)
  | s, some dep :: rest =>
    match recfn s dep with
    | (s2, Except.ok i) =>
      match resolveDeps recfn s2 rest with
      | (s3, Except.ok ds) => (s3, Except.ok (some i :: ds))
      | (s3, Except.error e) => (s3, Except.error e)
    | (s2, Except.error e) => (s2, Except.error e)

/-- Embedding of `resolve(controllers, providers, target)`:
cache check, recursive dependency resolution, the
`deps.some(isUndefined)` fatal check, construction, and classification
into the controller cache, the provider cache, or a logged warning. -/
def resolve (env : ClassId → ClassDef) : Nat → DIState → ClassId → DIState × Except String Nat
  | 0, s, _ => (s, Except.error "Maximum call stack size exceeded")
  | fuel + 1, s, target =>
    match cacheLookup s target with
    | some inst => (s, Except.ok inst)
    | none =>
      match resolveDeps (resolve env fuel) s (depTokens (env target)) with
      | (s1, Except.error e) => (s1, Except.error e)
      | (s1, Except.ok deps) =>
        if deps.any Option.isNone then
          (s1, Except.error ("Could not resolve all dependencies for " ++ toString target))
        else
          let inst := s1.nextId
          let s2 : DIState :=
            { s1 with
              nextId := s1.nextId + 1
              constructions := s1.constructions ++ [target] }
          if (env target).isCtrl then
            ({ s2 with controllers := aset s2.controllers target (some inst) },
              Except.ok inst)
          else if (env target).isInj then
            ({ s2 with providers := aset s2.providers target (some inst) },
              Except.ok inst)
          else
            ({ s2 with warnings := s2.warnings ++ [target] }, Except.ok inst)

/-- The empty resolver state. -/
def emptyState : DIState :=
  { controllers := [], providers := [], nextId := 0, constructions := [], warnings := [] }

/-- A class that is neither a controller nor injectable and has no
constructor parameters. -/
def plainClass : ClassDef :=
  { paramTypes := [], injectTokens := [], isCtrl := false, isInj := false }

/-- An environment where every class is plain. -/
def envPlain : ClassId → ClassDef := fun _ => plainClass

example : (resolve envPlain 1 emptyState 0).2 = Except.ok 0 := rfl

/-! Association-list and cache helper lemmas. -/

theorem alookup_aset_self (m : List (ClassId × Option Nat)) (c : ClassId) (v : Option Nat) :
    alookup (aset m c v) c = some v := by
  induction m with
  | nil => simp [aset, alookup]
  | cons pair rest ih =>
    by_cases h : pair.1 = c
    · simp [aset, h, alookup]
    · have hb : (pair.1 == c) = false := by simpa using h
      simp only [aset, if_neg h]
      simp only [alookup, List.find?_cons, hb]
      exact ih

theorem alookup_aset_ne (m : List (ClassId × Option Nat)) (c x : ClassId) (v : Option Nat)
    (hne : x ≠ c) :
    alookup (aset m c v) x = alookup m x := by
  induction m with
  | nil =>
    have hb : (c == x) = false := by simpa using fun h => hne h.symm
    simp [aset, alookup, hb]
  | cons pair rest ih =>
    by_cases h : pair.1 = c
    · have hb : (c == x) = false := by simpa using fun hcx => hne hcx.symm
      have hbp : (pair.1 == x) = false := by
        subst h
        exact hb
      simp only [aset, if_pos h, alookup, List.find?_cons, hb, hbp]
    · simp only [aset, if_neg h]
      by_cases hpx : pair.1 = x
      · have hb : (pair.1 == x) = true := by simpa using hpx
        simp [alookup, List.find?_cons, hb]
      · have hb : (pair.1 == x) = false := by simpa using hpx
        simp only [alookup, List.find?_cons, hb]
        exact ih

/-- Helper: `cacheLookup` only depends on the two entries of the class looked up. -/
theorem cacheLookup_congr {s s' : DIState} {t : ClassId}
    (hc : alookup s'.controllers t = alookup s.controllers t)
    (hp : alookup s'.providers t = alookup s.providers t) :
    cacheLookup s' t = cacheLookup s t := by
  unfold cacheLookup
  rw [hc, hp]

/-- State preservation through the dependency walk: any reflexive,
transitive relation preserved by each recursive resolution step is
preserved by `resolveDeps`. -/
theorem resolveDeps_preserve
    (recfn : DIState → ClassId → DIState × Except String Nat)
    (P : DIState → DIState → Prop)
    (hrefl : ∀ s, P s s)
    (htrans : ∀ a b c, P a b → P b c → P a c)
    (toks : List (Option ClassId))
    (hrec : ∀ st d, some d ∈ toks → P st (recfn st d).1) :
    ∀ s, P s (resolveDeps recfn s toks).1 := by
  induction toks with
  | nil =>
    intro s
    exact hrefl s
  | cons tok rest ih =>
    intro s
    have hrec' : ∀ st d, some d ∈ rest → P st (recfn st d).1 := by
      intro st d hd
      exact hrec st d (List.mem_cons_of_mem _ hd)
    cases tok with
    | none =>
      have h1 := ih hrec' s
      cases hres : resolveDeps recfn s rest with
      | mk s2 r =>
        rw [hres] at h1
        cases r with
        | ok ds => simpa [resolveDeps, hres] using h1
        | error e => simpa [resolveDeps, hres] using h1
    | some dep =>
      have h0 : P s (recfn s dep).1 := hrec s dep (List.mem_cons_self _ _)
      cases hcall : recfn s dep with
      | mk s2 r =>
        rw [hcall] at h0
        cases r with
        | ok i =>
          have h1 := ih hrec' s2
          cases hres : resolveDeps recfn s2 rest with
          | mk s3 r2 =>
            rw [hres] at h1
            cases r2 with
            | ok ds =>
              have : P s s3 := htrans _ _ _ h0 h1
              simpa [resolveDeps, hcall, hres] using this
            | error e =>
              have : P s s3 := htrans _ _ _ h0 h1
              simpa [resolveDeps, hcall, hres] using this
        | error e => simpa [resolveDeps, hcall] using h0

/-- A falsy token in the walked list leaves an `undefined` entry in a
successfully completed dependency list. -/
theorem resolveDeps_ok_none_mem
    (recfn : DIState → ClassId → DIState × Except String Nat) :
    ∀ (toks : List (Option ClassId)) (s s2 : DIState) (ds : List (Option Nat)),
      resolveDeps recfn s toks = (s2, Except.ok ds) → none ∈ toks → none ∈ ds := by
  intro toks
  induction toks with
  | nil =>
    intro s s2 ds h hmem
    simp at hmem
  | cons tok rest ih =>
    intro s s2 ds h hmem
    cases tok with
    | none =>
      cases hres : resolveDeps recfn s rest with
      | mk s3 r =>
        cases r with
        | ok ds2 =>
          simp only [resolveDeps, hres] at h
          injection h with h1 h2
          injection h2 with h3
          subst h3
          exact List.mem_cons_self _ _
        | error e =>
          simp only [resolveDeps, hres] at h
          injection h with h1 h2
          exact Except.noConfusion h2
    | some dep =>
      have hmem' : none ∈ rest := by
        rcases List.mem_cons.mp hmem with h0 | h0
        · exact absurd h0 (by simp)
        · exact h0
      cases hcall : recfn s dep with
      | mk s3 r =>
        cases r with
        | ok i =>
          cases hres : resolveDeps recfn s3 rest with
          | mk s4 r2 =>
            cases r2 with
            | ok ds2 =>
              simp only [resolveDeps, hcall, hres] at h
              injection h with h1 h2
              injection h2 with h3
              subst h3
              exact List.mem_cons_of_mem _ (ih s3 s4 ds2 hres hmem')
            | error e =>
              simp only [resolveDeps, hcall, hres] at h
              injection h with h1 h2
              exact Except.noConfusion h2
        | error e =>
          simp only [resolveDeps, hcall] at h
          injection h with h1 h2
          exact Except.noConfusion h2

/-- Unfolding lemma: a cache hit returns immediately with no state change. -/
theorem resolve_succ_hit (env : ClassId → ClassDef) (fuel : Nat) (s : DIState)
    (c : ClassId) (j : Nat) (hhit : cacheLookup s c = some j) :
    resolve env (fuel + 1) s c = (s, Except.ok j) := by
  simp only [resolve, hhit]

/-- Once a class is cached with an instance, any later resolution (of any
target) keeps that cache entry intact and never constructs the class
again. -/
theorem resolve_preserves_cached (env : ClassId → ClassDef) :
    ∀ (fuel : Nat) (s : DIState) (c t : ClassId) (i : Nat),
      cacheLookup s t = some i →
      cacheLookup (resolve env fuel s c).1 t = some i ∧
      ((resolve env fuel s c).1).constructions.count t = s.constructions.count t := by
  intro fuel
  induction fuel with
  | zero =>
    intro s c t i h
    exact ⟨h, rfl⟩
  | succ fuel ih =>
    intro s c t i h
    cases hcc : cacheLookup s c with
    | some j =>
      rw [resolve_succ_hit env fuel s c j hcc]
      exact ⟨h, rfl⟩
    | none =>
      have hne : t ≠ c := by
        intro he
        rw [he] at h
        rw [hcc] at h
        exact Option.noConfusion h
      have hP := resolveDeps_preserve (resolve env fuel)
          (fun a b => ∀ t2 i2, cacheLookup a t2 = some i2 →
            cacheLookup b t2 = some i2 ∧
            b.constructions.count t2 = a.constructions.count t2)
          (fun _ t2 i2 h2 => ⟨h2, rfl⟩)
          (fun a b c2 hab hbc t2 i2 h2 =>
            ⟨(hbc t2 i2 (hab t2 i2 h2).1).1,
             by rw [(hbc t2 i2 (hab t2 i2 h2).1).2, (hab t2 i2 h2).2]⟩)
          (depTokens (env c))
          (fun st d _ t2 i2 h2 => ih st d t2 i2 h2)
          s
      cases hres : resolveDeps (resolve env fuel) s (depTokens (env c)) with
      | mk s1 r =>
        rw [hres] at hP
        have hs1 : cacheLookup s1 t = some i ∧
            s1.constructions.count t = s.constructions.count t := hP t i h
        cases r with
        | error e =>
          simp only [resolve, hcc, hres]
          exact hs1
        | ok deps =>
          by_cases hany : deps.any Option.isNone = true
          · simp only [resolve, hcc, hres, hany, if_true]
            exact hs1
          · have hany' : deps.any Option.isNone = false := by
              cases hq : deps.any Option.isNone
              · rfl
              · exact absurd hq hany
            simp only [resolve, hcc, hres, hany', Bool.false_eq_true, if_false]
            have hcount : (s1.constructions ++ [c]).count t = s.constructions.count t := by
              rw [List.count_append, hs1.2]
              have : [c].count t = 0 := by
                rw [List.count_eq_zero]
                simp only [List.mem_singleton]
                exact hne
              omega
            cases hctrl : (env c).isCtrl with
            | true =>
              simp only [if_true]
              constructor
              · have hcl : alookup (aset s1.controllers c (some s1.nextId)) t =
                    alookup s1.controllers t := alookup_aset_ne _ _ _ _ hne
                calc cacheLookup
                      { s1 with
                        nextId := s1.nextId + 1
                        constructions := s1.constructions ++ [c]
                        controllers := aset s1.controllers c (some s1.nextId) } t
                    = cacheLookup s1 t := cacheLookup_congr hcl rfl
                  _ = some i := hs1.1
              · exact hcount
            | false =>
              simp only [Bool.false_eq_true, if_false]
              cases hinj : (env c).isInj with
              | true =>
                simp only [if_true]
                constructor
                · have hpl : alookup (aset s1.providers c (some s1.nextId)) t =
                      alookup s1.providers t := alookup_aset_ne _ _ _ _ hne
                  calc cacheLookup
                        { s1 with
                          nextId := s1.nextId + 1
                          constructions := s1.constructions ++ [c]
                          providers := aset s1.providers c (some s1.nextId) } t
                      = cacheLookup s1 t := cacheLookup_congr rfl hpl
                    _ = some i := hs1.1
                · exact hcount
              | false =>
                simp only [Bool.false_eq_true, if_false]
                exact ⟨hs1.1, hcount⟩

/-- A class that is neither a controller nor injectable never enters either
cache, no matter what is resolved: only the warn branch can handle it. -/
theorem resolve_preserves_plain (env : ClassId → ClassDef) (t : ClassId)
    (h1 : (env t).isCtrl = false) (h2 : (env t).isInj = false) :
    ∀ (fuel : Nat) (s : DIState) (c : ClassId),
      alookup ((resolve env fuel s c).1).controllers t = alookup s.controllers t ∧
      alookup ((resolve env fuel s c).1).providers t = alookup s.providers t := by
  intro fuel
  induction fuel with
  | zero =>
    intro s c
    exact ⟨rfl, rfl⟩
  | succ fuel ih =>
    intro s c
    cases hcc : cacheLookup s c with
    | some j =>
      rw [resolve_succ_hit env fuel s c j hcc]
      exact ⟨rfl, rfl⟩
    | none =>
      have hP := resolveDeps_preserve (resolve env fuel)
          (fun a b => alookup b.controllers t = alookup a.controllers t ∧
            alookup b.providers t = alookup a.providers t)
          (fun _ => ⟨rfl, rfl⟩)
          (fun a b c2 hab hbc => ⟨hbc.1.trans hab.1, hbc.2.trans hab.2⟩)
          (depTokens (env c))
          (fun st d _ => ih st d)
          s
      cases hres : resolveDeps (resolve env fuel) s (depTokens (env c)) with
      | mk s1 r =>
        rw [hres] at hP
        cases r with
        | error e =>
          simp only [resolve, hcc, hres]
          exact hP
        | ok deps =>
          by_cases hany : deps.any Option.isNone = true
          · simp only [resolve, hcc, hres, hany, if_true]
            exact hP
          · have hany' : deps.any Option.isNone = false := by
              cases hq : deps.any Option.isNone
              · rfl
              · exact absurd hq hany
            simp only [resolve, hcc, hres, hany', Bool.false_eq_true, if_false]
            by_cases hct : c = t
            · subst hct
              rw [h1, h2]
              simp only [Bool.false_eq_true, if_false]
              exact hP
            · have hne : t ≠ c := fun he => hct he.symm
              cases hctrl : (env c).isCtrl with
              | true =>
                simp only [if_true]
                exact ⟨(alookup_aset_ne _ _ _ _ hne).trans hP.1, hP.2⟩
              | false =>
                simp only [Bool.false_eq_true, if_false]
                cases hinj : (env c).isInj with
                | true =>
                  simp only [if_true]
                  exact ⟨hP.1, (alookup_aset_ne _ _ _ _ hne).trans hP.2⟩
                | false =>
                  simp only [Bool.false_eq_true, if_false]
                  exact hP

/-- Under an acyclicity rank (every dependency token has strictly smaller
rank than its dependent), resolving a class never changes the cache entries
of any class of strictly greater rank. -/
theorem resolve_preserves_higher_rank (env : ClassId → ClassDef)
    (rank : ClassId → Nat)
    (hrank : ∀ c d, some d ∈ depTokens (env c) → rank d < rank c) :
    ∀ (fuel : Nat) (s : DIState) (c x : ClassId), rank c < rank x →
      alookup ((resolve env fuel s c).1).controllers x = alookup s.controllers x ∧
      alookup ((resolve env fuel s c).1).providers x = alookup s.providers x := by
  intro fuel
  induction fuel with
  | zero =>
    intro s c x hlt
    exact ⟨rfl, rfl⟩
  | succ fuel ih =>
    intro s c x hlt
    cases hcc : cacheLookup s c with
    | some j =>
      rw [resolve_succ_hit env fuel s c j hcc]
      exact ⟨rfl, rfl⟩
    | none =>
      have hP := resolveDeps_preserve (resolve env fuel)
          (fun a b => alookup b.controllers x = alookup a.controllers x ∧
            alookup b.providers x = alookup a.providers x)
          (fun _ => ⟨rfl, rfl⟩)
          (fun a b c2 hab hbc => ⟨hbc.1.trans hab.1, hbc.2.trans hab.2⟩)
          (depTokens (env c))
          (fun st d hd => ih st d x (Nat.lt_trans (hrank c d hd) hlt))
          s
      cases hres : resolveDeps (resolve env fuel) s (depTokens (env c)) with
      | mk s1 r =>
        rw [hres] at hP
        cases r with
        | error e =>
          simp only [resolve, hcc, hres]
          exact hP
        | ok deps =>
          by_cases hany : deps.any Option.isNone = true
          · simp only [resolve, hcc, hres, hany, if_true]
            exact hP
          · have hany' : deps.any Option.isNone = false := by
              cases hq : deps.any Option.isNone
              · rfl
              · exact absurd hq hany
            simp only [resolve, hcc, hres, hany', Bool.false_eq_true, if_false]
            have hne : x ≠ c := by
              intro he
              rw [he] at hlt
              exact Nat.lt_irrefl _ hlt
            cases hctrl : (env c).isCtrl with
            | true =>
              simp only [if_true]
              exact ⟨(alookup_aset_ne _ _ _ _ hne).trans hP.1, hP.2⟩
            | false =>
              simp only [Bool.false_eq_true, if_false]
              cases hinj : (env c).isInj with
              | true =>
                simp only [if_true]
                exact ⟨hP.1, (alookup_aset_ne _ _ _ _ hne).trans hP.2⟩
              | false =>
                simp only [Bool.false_eq_true, if_false]
                exact hP

/-- Unfolding lemma: a cache miss whose dependency walk throws propagates
the thrown error with the state the walk left behind. -/
theorem resolve_miss_err_eq (env : ClassId → ClassDef) (fuel : Nat) (s : DIState)
    (t : ClassId) (s1 : DIState) (e : String)
    (hcc : cacheLookup s t = none)
    (hres : resolveDeps (resolve env fuel) s (depTokens (env t)) =
      (s1, Except.error e)) :
    resolve env (fuel + 1) s t = (s1, Except.error e) := by
  simp only [resolve, hcc, hres]

/-- Unfolding lemma: a cache miss whose dependency walk completes reaches
the `some(isUndefined)` check and then the construction/classification
branches. -/
theorem resolve_miss_ok_eq (env : ClassId → ClassDef) (fuel : Nat) (s : DIState)
    (t : ClassId) (s1 : DIState) (deps : List (Option Nat))
    (hcc : cacheLookup s t = none)
    (hres : resolveDeps (resolve env fuel) s (depTokens (env t)) =
      (s1, Except.ok deps)) :
    resolve env (fuel + 1) s t =
      (if deps.any Option.isNone then
        (s1, Except.error ("Could not resolve all dependencies for " ++ toString t))
      else
        if (env t).isCtrl then
          ({ controllers := aset s1.controllers t (some s1.nextId),
             providers := s1.providers, nextId := s1.nextId + 1,
             constructions := s1.constructions ++ [t],
             warnings := s1.warnings }, Except.ok s1.nextId)
        else if (env t).isInj then
          ({ controllers := s1.controllers,
             providers := aset s1.providers t (some s1.nextId),
             nextId := s1.nextId + 1,
             constructions := s1.constructions ++ [t],
             warnings := s1.warnings }, Except.ok s1.nextId)
        else
          ({ controllers := s1.controllers, providers := s1.providers,
             nextId := s1.nextId + 1, constructions := s1.constructions ++ [t],
             warnings := s1.warnings ++ [t] }, Except.ok s1.nextId)) := by
  simp only [resolve, hcc, hres]

/-- A `cacheLookup` miss rules out a live controller-cache entry. -/
theorem cacheLookup_none_no_ctrl (s : DIState) (t : ClassId)
    (h : cacheLookup s t = none) :
    ∀ j, alookup s.controllers t ≠ some (some j) := by
  intro j hj
  unfold cacheLookup at h
  rw [hj] at h
  exact Option.noConfusion h

/-- Counterexample to claim C3 as stated: a class that is neither a
recognized controller nor marked injectable is not cached, so resolving it
a second time constructs a fresh instance (different creation id) and its
construction count reaches 2. -/
theorem resolve_twice_counterexample :
    (resolve envPlain 1 emptyState 0).2 = Except.ok 0 ∧
    (resolve envPlain 1 (resolve envPlain 1 emptyState 0).1 0).2 = Except.ok 1 ∧
    (resolve envPlain 1 (resolve envPlain 1 emptyState 0).1 0).2 ≠
      (resolve envPlain 1 emptyState 0).2 ∧
    ((resolve envPlain 1 (resolve envPlain 1 emptyState 0).1 0).1).constructions.count 0
      = 2 := by
  refine ⟨rfl, rfl, ?_, rfl⟩
  intro h
  have h2 : (Except.ok 1 : Except String Nat) = Except.ok 0 := h
  simp at h2

/-- Claim C3 (amended): for every class recognized as a controller or
marked injectable, under an acyclic dependency environment, a successful
resolution caches the instance; resolving the class a second time returns
the identical cached instance with no state change, and no later
resolution (of any target) ever constructs that class again — so a shared
dependency of this kind is constructed exactly once. -/
theorem resolve_singleton (env : ClassId → ClassDef) (rank : ClassId → Nat)
    (hrank : ∀ c d, some d ∈ depTokens (env c) → rank d < rank c)
    (fuel : Nat) (s : DIState) (t : ClassId) (s' : DIState) (i : Nat)
    (hreg : (env t).isCtrl = true ∨ (env t).isInj = true)
    (hrun : resolve env fuel s t = (s', Except.ok i)) :
    cacheLookup s' t = some i ∧
    (∀ fuel2, resolve env (fuel2 + 1) s' t = (s', Except.ok i)) ∧
    (∀ fuel3 c, cacheLookup ((resolve env fuel3 s' c).1) t = some i ∧
      ((resolve env fuel3 s' c).1).constructions.count t =
        s'.constructions.count t) := by
  have hcached : cacheLookup s' t = some i := by
    cases fuel with
    | zero =>
      simp only [resolve] at hrun
      injection hrun with h1 h2
      exact Except.noConfusion h2
    | succ fuel =>
      cases hcc : cacheLookup s t with
      | some j =>
        rw [resolve_succ_hit env fuel s t j hcc] at hrun
        injection hrun with h1 h2
        injection h2 with h3
        subst h1
        rw [hcc, h3]
      | none =>
        have hPres := resolveDeps_preserve (resolve env fuel)
            (fun a b => alookup b.controllers t = alookup a.controllers t ∧
              alookup b.providers t = alookup a.providers t)
            (fun _ => ⟨rfl, rfl⟩)
            (fun a b c2 hab hbc => ⟨hbc.1.trans hab.1, hbc.2.trans hab.2⟩)
            (depTokens (env t))
            (fun st d hd =>
              resolve_preserves_higher_rank env rank hrank fuel st d t (hrank t d hd))
            s
        cases hres : resolveDeps (resolve env fuel) s (depTokens (env t)) with
        | mk s1 r =>
          rw [hres] at hPres
          cases r with
          | error e =>
            rw [resolve_miss_err_eq env fuel s t s1 e hcc hres] at hrun
            injection hrun with h1 h2
            exact Except.noConfusion h2
          | ok deps =>
            rw [resolve_miss_ok_eq env fuel s t s1 deps hcc hres] at hrun
            by_cases hany : deps.any Option.isNone = true
            · rw [if_pos hany] at hrun
              injection hrun with h1 h2
              exact Except.noConfusion h2
            · rw [if_neg hany] at hrun
              cases hctrl : (env t).isCtrl with
              | true =>
                rw [if_pos hctrl] at hrun
                injection hrun with h1 h2
                injection h2 with h3
                subst h1
                subst h3
                unfold cacheLookup
                have hc : alookup (aset s1.controllers t (some s1.nextId)) t =
                    some (some s1.nextId) := alookup_aset_self _ _ _
                simp only []
                rw [hc]
              | false =>
                rw [if_neg (by rw [hctrl]; simp)] at hrun
                cases hinj : (env t).isInj with
                | true =>
                  rw [if_pos hinj] at hrun
                  injection hrun with h1 h2
                  injection h2 with h3
                  subst h1
                  subst h3
                  unfold cacheLookup
                  simp only []
                  have hp : alookup (aset s1.providers t (some s1.nextId)) t =
                      some (some s1.nextId) := alookup_aset_self _ _ _
                  rw [hp]
                  cases halo : alookup s1.controllers t with
                  | none => rfl
                  | some o =>
                    cases o with
                    | none => rfl
                    | some j =>
                      have : alookup s.controllers t = some (some j) :=
                        hPres.1 ▸ halo
                      exact absurd this (cacheLookup_none_no_ctrl s t hcc j)
                | false =>
                  rcases hreg with h | h
                  · exact absurd h (by rw [hctrl]; simp)
                  · exact absurd h (by rw [hinj]; simp)
  refine ⟨hcached, ?_, ?_⟩
  · intro fuel2
    exact resolve_succ_hit env fuel2 s' t i hcached
  · intro fuel3 c
    exact resolve_preserves_cached env fuel3 s' c t i hcached

/-- Shared-dependency environment for the C3 witness: class 0 is an
injectable leaf, classes 1 and 2 are controllers that both depend on it. -/
def envShared : ClassId → ClassDef
  | 0 => { paramTypes := [], injectTokens := [], isCtrl := false, isInj := true }
  | 1 => { paramTypes := [some 0], injectTokens := [], isCtrl := true, isInj := false }
  | 2 => { paramTypes := [some 0], injectTokens := [], isCtrl := true, isInj := false }
  | _ + 3 => { paramTypes := [], injectTokens := [], isCtrl := false, isInj := true }

theorem envShared_rank : ∀ c d, some d ∈ depTokens (envShared c) → d < c := by
  intro c d h
  match c with
  | 0 =>
    have he : depTokens (envShared 0) = [] := rfl
    rw [he] at h
    simp at h
  | 1 =>
    have he : depTokens (envShared 1) = [some 0] := rfl
    rw [he] at h
    simp at h
    subst h
    decide
  | 2 =>
    have he : depTokens (envShared 2) = [some 0] := rfl
    rw [he] at h
    simp at h
    subst h
    decide
  | (n + 3) =>
    have he : depTokens (envShared (n + 3)) = [] := rfl
    rw [he] at h
    simp at h

/-- Witness for C3 (amended): controller 1 depends on injectable 0;
after the first resolution, resolving 1 again returns the same instance
id with the state unchanged, and resolving controller 2 (which shares
dependency 0) does not construct 0 again. -/
theorem resolve_singleton_witness :
    resolve envShared 3 ((resolve envShared 3 emptyState 1).1) 1 =
      ((resolve envShared 3 emptyState 1).1, Except.ok 1) ∧
    ((resolve envShared 3 ((resolve envShared 3 emptyState 1).1) 2).1).constructions
      = [0, 1, 2] ∧
    ((resolve envShared 3 ((resolve envShared 3 emptyState 1).1) 2).1).constructions.count 0
      = 1 := by
  have h := resolve_singleton envShared (fun c => c) envShared_rank 3 emptyState 1
      ((resolve envShared 3 emptyState 1).1) 1 (Or.inl rfl) rfl
  exact ⟨h.2.1 2, rfl, rfl⟩

/-- Claim C6: a class with an unresolvable constructor position (missing
terminal type) always fails to resolve with a raised error, and the failed
class is registered in neither cache (no partial registration of the
dependent).  Stated under an acyclic dependency environment. -/
theorem resolve_missing_dep (env : ClassId → ClassDef) (rank : ClassId → Nat)
    (hrank : ∀ c d, some d ∈ depTokens (env c) → rank d < rank c)
    (t : ClassId) (hmiss : none ∈ depTokens (env t)) :
    ∀ (fuel : Nat) (s s' : DIState) (r : Except String Nat),
      cacheLookup s t = none →
      resolve env fuel s t = (s', r) →
      (∃ e, r = Except.error e) ∧
      alookup s'.controllers t = alookup s.controllers t ∧
      alookup s'.providers t = alookup s.providers t ∧
      cacheLookup s' t = none := by
  intro fuel s s' r hnc hrun
  cases fuel with
  | zero =>
    simp only [resolve] at hrun
    injection hrun with h1 h2
    subst h1
    exact ⟨⟨_, h2.symm⟩, rfl, rfl, hnc⟩
  | succ fuel =>
    have hPres := resolveDeps_preserve (resolve env fuel)
        (fun a b => alookup b.controllers t = alookup a.controllers t ∧
          alookup b.providers t = alookup a.providers t)
        (fun _ => ⟨rfl, rfl⟩)
        (fun a b c2 hab hbc => ⟨hbc.1.trans hab.1, hbc.2.trans hab.2⟩)
        (depTokens (env t))
        (fun st d hd =>
          resolve_preserves_higher_rank env rank hrank fuel st d t (hrank t d hd))
        s
    cases hres : resolveDeps (resolve env fuel) s (depTokens (env t)) with
    | mk s1 r1 =>
      rw [hres] at hPres
      cases r1 with
      | error e =>
        rw [resolve_miss_err_eq env fuel s t s1 e hnc hres] at hrun
        injection hrun with h1 h2
        subst h1
        refine ⟨⟨e, h2.symm⟩, hPres.1, hPres.2, ?_⟩
        rw [cacheLookup_congr hPres.1 hPres.2]
        exact hnc
      | ok deps =>
        rw [resolve_miss_ok_eq env fuel s t s1 deps hnc hres] at hrun
        have hdn : none ∈ deps :=
          resolveDeps_ok_none_mem (resolve env fuel) (depTokens (env t)) s s1 deps
            hres hmiss
        have hany : deps.any Option.isNone = true :=
          List.any_eq_true.mpr ⟨none, hdn, rfl⟩
        rw [if_pos hany] at hrun
        injection hrun with h1 h2
        subst h1
        refine ⟨⟨_, h2.symm⟩, hPres.1, hPres.2, ?_⟩
        rw [cacheLookup_congr hPres.1 hPres.2]
        exact hnc

/-- Environment for the C6 witness: every class has one constructor
position whose design type is missing and has no explicit token. -/
def envMissing : ClassId → ClassDef := fun _ =>
  { paramTypes := [none], injectTokens := [], isCtrl := true, isInj := false }

theorem envMissing_rank : ∀ c d, some d ∈ depTokens (envMissing c) → d < c := by
  intro c d h
  have he : depTokens (envMissing c) = [none] := rfl
  rw [he] at h
  simp at h

/-- Witness for C6: the concrete class 3 with a missing terminal type
fails with an error and stays out of both caches. -/
theorem resolve_missing_dep_witness :
    (∃ e, (resolve envMissing 4 emptyState 3).2 = Except.error e) ∧
    cacheLookup (resolve envMissing 4 emptyState 3).1 3 = none := by
  have h := resolve_missing_dep envMissing (fun c => c) envMissing_rank 3
      (by decide) 4 emptyState (resolve envMissing 4 emptyState 3).1
      (resolve envMissing 4 emptyState 3).2 rfl rfl
  exact ⟨h.1, h.2.2.2⟩

/-- Counterexample to claim C7 as stated: a successfully constructed class
that is neither a recognized controller nor marked injectable is warned
about and returned, but it is *not* cached — both cache maps stay empty. -/
theorem resolve_unregistered_counterexample :
    (resolve envPlain 1 emptyState 5).2 = Except.ok 0 ∧
    ((resolve envPlain 1 emptyState 5).1).warnings = [5] ∧
    cacheLookup (resolve envPlain 1 emptyState 5).1 5 = none ∧
    ((resolve envPlain 1 emptyState 5).1).controllers = [] ∧
    ((resolve envPlain 1 emptyState 5).1).providers = [] :=
  ⟨rfl, rfl, rfl, rfl, rfl⟩

/-- Claim C7 (amended): a class that resolves successfully but is neither
a recognized controller nor explicitly injectable triggers a non-fatal
warning and its instance is returned — but it is not cached in either
partition, leaving its cache entries exactly as they were. -/
theorem resolve_unregistered (env : ClassId → ClassDef) (t : ClassId)
    (h1 : (env t).isCtrl = false) (h2 : (env t).isInj = false) :
    ∀ (fuel : Nat) (s s' : DIState) (i : Nat),
      cacheLookup s t = none →
      resolve env fuel s t = (s', Except.ok i) →
      t ∈ s'.warnings ∧ cacheLookup s' t = none ∧
      alookup s'.controllers t = alookup s.controllers t ∧
      alookup s'.providers t = alookup s.providers t := by
  intro fuel s s' i hnc hrun
  cases fuel with
  | zero =>
    simp only [resolve] at hrun
    injection hrun with h3 h4
    exact Except.noConfusion h4
  | succ fuel =>
    have hPres := resolveDeps_preserve (resolve env fuel)
        (fun a b => alookup b.controllers t = alookup a.controllers t ∧
          alookup b.providers t = alookup a.providers t)
        (fun _ => ⟨rfl, rfl⟩)
        (fun a b c2 hab hbc => ⟨hbc.1.trans hab.1, hbc.2.trans hab.2⟩)
        (depTokens (env t))
        (fun st d _ => resolve_preserves_plain env t h1 h2 fuel st d)
        s
    cases hres : resolveDeps (resolve env fuel) s (depTokens (env t)) with
    | mk s1 r1 =>
      rw [hres] at hPres
      cases r1 with
      | error e =>
        rw [resolve_miss_err_eq env fuel s t s1 e hnc hres] at hrun
        injection hrun with h3 h4
        exact Except.noConfusion h4
      | ok deps =>
        rw [resolve_miss_ok_eq env fuel s t s1 deps hnc hres] at hrun
        by_cases hany : deps.any Option.isNone = true
        · rw [if_pos hany] at hrun
          injection hrun with h3 h4
          exact Except.noConfusion h4
        · rw [if_neg hany] at hrun
          rw [if_neg (by rw [h1]; simp)] at hrun
          rw [if_neg (by rw [h2]; simp)] at hrun
          injection hrun with h3 h4
          subst h3
          refine ⟨?_, ?_, hPres.1, hPres.2⟩
          · exact List.mem_append.mpr (Or.inr (by simp))
          · have hc2 : cacheLookup
                { controllers := s1.controllers, providers := s1.providers,
                  nextId := s1.nextId + 1,
                  constructions := s1.constructions ++ [t],
                  warnings := s1.warnings ++ [t] } t = cacheLookup s t :=
              cacheLookup_congr hPres.1 hPres.2
            rw [hc2]
            exact hnc

/-- Witness for C7 (amended): resolving the plain class 5 logs a warning
and leaves its cache entries (absent) untouched. -/
theorem resolve_unregistered_witness :
    5 ∈ ((resolve envPlain 2 emptyState 5).1).warnings ∧
    cacheLookup (resolve envPlain 2 emptyState 5).1 5 = none := by
  have h := resolve_unregistered envPlain 5 rfl rfl 2 emptyState
      (resolve envPlain 2 emptyState 5).1 0 rfl rfl
  exact ⟨h.1, h.2.1⟩

/-! ## Event filter evaluator (src/src/utils/checkEventFilters.ts)

The filters declared in method options are string literals or JS `RegExp`
objects; a `RegExp` is embedded as its `test` function.  The event is
reduced to the three fields the evaluator reads:
`event.range?.getA1Notation()`, `event.source?.getId?.()` and
`event.changeType`, each `none` when the optional chain yields
`undefined`.  JS truthiness of those strings makes `""` behave like
`undefined` in the `if (!x) return false` guards. -/

/-- The trigger event kinds (`AppsScriptEventType`).  The enum's source
file is not in the snapshot; its members are taken from their uses in the
source (`App.on*` wrappers and `checkEventFilters`). -/
inductive AppsScriptEventType
  | INSTALL
  | OPEN
  | EDIT
  | CHANGE
  | SELECTION_CHANGE
  | FORM_SUBMIT
deriving DecidableEq, Repr

/-- One declared filter value: a string literal or a regular expression
(embedded by its `test` function). -/
inductive FilterVal
  | str (s : String)
  | regex (test : String → Bool)

/-- One filter option field: absent (or otherwise falsy), a single value,
or an array of values. -/
inductive FilterDecl
  | absent
  | single (v : FilterVal)
  | array (vs : List FilterVal)

/-- JS truthiness of the declared field (`if (methodOptions.range)` …):
absent and the empty string are falsy; a `RegExp` object and any array
(even empty) are truthy. -/
def filterTruthy : FilterDecl → Bool
  | FilterDecl.absent => false
  | FilterDecl.single (FilterVal.str s) => s != ""
  | FilterDecl.single (FilterVal.regex _) => true
  | FilterDecl.array _ => true

/-- Embedding of `Array.isArray(x) ? x : [x]`. -/
def filterList : FilterDecl → List FilterVal
  | FilterDecl.absent => []
  | FilterDecl.single v => [v]
  | FilterDecl.array vs => vs

/-- Embedding of `r instanceof RegExp ? r.test(a1) : a1 === r` for the range filter. -/
def rangeValMatches (a1 : String) : FilterVal → Bool
  | FilterVal.str s => a1 == s
  | FilterVal.regex test => test a1

/-- Embedding of `eventFormId === id`: a strict equality against a string, so a
`RegExp` value never matches here. -/
def strictEqMatches (x : String) : FilterVal → Bool
  | FilterVal.str s => x == s
  | FilterVal.regex _ => false

/-- The method options object read by the evaluator. -/
structure MethodOptions where
  range : FilterDecl
  formId : FilterDecl
  changeType : FilterDecl

/-- The fields of the raw platform event that the evaluator reads. -/
structure RawEvent where
  rangeA1 : Option String
  formId : Option String
  changeType : Option String

/-- Embedding of `checkEventFilters(eventType, event, methodOptions)`. -/
def checkEventFilters (eventType : AppsScriptEventType) (event : RawEvent)
    (methodOptions : Option MethodOptions) : Bool :=
  match methodOptions with
  | none => true
  | some opts =>
    match eventType with
    | AppsScriptEventType.EDIT =>
      if filterTruthy opts.range then
        match event.rangeA1 with
        | none => false
        | some a1 =>
          if a1 == "" then false
          else (filterList opts.range).any (rangeValMatches a1)
      else true
    | AppsScriptEventType.FORM_SUBMIT =>
      if filterTruthy opts.formId then
        match event.formId with
        | none => false
        | some fid =>
          if fid == "" then false
          else (filterList opts.formId).any (strictEqMatches fid)
      else true
    | AppsScriptEventType.CHANGE =>
      if filterTruthy opts.changeType then
        match event.changeType with
        | none => false
        | some ct =>
          if ct == "" then false
          else (filterList opts.changeType).any (strictEqMatches ct)
      else true
    | _ => true

/-- The `test` function of the JS regular expression `/^A1/`: the subject
starts with the characters `A1`. -/
def testCaretA1 : String → Bool := fun s =>
  match s.data with
  | 'A' :: '1' :: _ => true
  | _ => false

/-- The method options `{ range: /^A1/ }` from the spec's mock property. -/
def optsCaretA1 : MethodOptions :=
  { range := FilterDecl.single (FilterVal.regex testCaretA1)
    formId := FilterDecl.absent
    changeType := FilterDecl.absent }

/-- Claim C9: for a cell-edit event with a declared (truthy) range filter
and a present, non-empty A1 range, `checkEventFilters` passes iff some
declared value matches — a literal equal to the range or a regular
expression whose test accepts it; with no filter declared it always
passes; and concretely `range: /^A1/` passes for `"A1:C3"` and fails for
`"B2"`. -/
theorem checkEventFilters_range_spec :
    (∀ (event : RawEvent) (opts : MethodOptions) (a1 : String),
      event.rangeA1 = some a1 → a1 ≠ "" → filterTruthy opts.range = true →
      (checkEventFilters AppsScriptEventType.EDIT event (some opts) = true ↔
        ∃ v ∈ filterList opts.range,
          (∃ s, v = FilterVal.str s ∧ a1 = s) ∨
          (∃ test, v = FilterVal.regex test ∧ test a1 = true))) ∧
    (∀ event, checkEventFilters AppsScriptEventType.EDIT event none = true) ∧
    (∀ event opts, filterTruthy opts.range = false →
      checkEventFilters AppsScriptEventType.EDIT event (some opts) = true) ∧
    checkEventFilters AppsScriptEventType.EDIT
      { rangeA1 := some "A1:C3", formId := none, changeType := none }
      (some optsCaretA1) = true ∧
    checkEventFilters AppsScriptEventType.EDIT
      { rangeA1 := some "B2", formId := none, changeType := none }
      (some optsCaretA1) = false := by
  refine ⟨?_, ?_, ?_, rfl, rfl⟩
  · intro event opts a1 ha hne htr
    have hbe : (a1 == "") = false := by simpa using hne
    simp only [checkEventFilters, htr, if_true, ha, hbe, Bool.false_eq_true, if_false]
    rw [List.any_eq_true]
    constructor
    · rintro ⟨v, hv, hm⟩
      refine ⟨v, hv, ?_⟩
      cases v with
      | str s =>
        simp only [rangeValMatches] at hm
        exact Or.inl ⟨s, rfl, by simpa using hm⟩
      | regex test =>
        simp only [rangeValMatches] at hm
        exact Or.inr ⟨test, rfl, hm⟩
    · rintro ⟨v, hv, hm⟩
      refine ⟨v, hv, ?_⟩
      rcases hm with ⟨s, rfl, he⟩ | ⟨test, rfl, he⟩
      · simp only [rangeValMatches]
        simpa using he
      · simpa only [rangeValMatches] using he
  · intro event
    rfl
  · intro event opts htf
    simp only [checkEventFilters, htf, Bool.false_eq_true, if_false]

/-- Witness for C9: applying the theorem at the `/^A1/` filter with edited
range `"A1:C3"` (discharging all hypotheses concretely). -/
theorem checkEventFilters_range_spec_witness :
    checkEventFilters AppsScriptEventType.EDIT
      { rangeA1 := some "A1:C3", formId := none, changeType := none }
      (some optsCaretA1) = true := by
  refine (checkEventFilters_range_spec.1
      { rangeA1 := some "A1:C3", formId := none, changeType := none }
      optsCaretA1 "A1:C3" rfl (by decide) rfl).mpr ?_
  refine ⟨FilterVal.regex testCaretA1, by simp [optsCaretA1, filterList], ?_⟩
  exact Or.inr ⟨testCaretA1, rfl, rfl⟩

/-! ## Non-web event dispatch (the controller loop of App.on)

The loop iterates the registered controllers; a controller whose
`CONTROLLER_TYPE_METADATA` is a string starting with `"appsscript"` is
resolved (outside any try/catch) and its collected prototype-chain methods
are filtered by event kind and filter; each matched handler is invoked
inside its own try/catch whose catch only logs.  Handlers are embedded by
an abstract `invoke` function; an invocation's outcome is `ok` or a thrown
(stringified) error. -/

/-- What `App.on` reads about one collected method: its name, its
`APPSSCRIPT_EVENT_METADATA` and its `APPSSCRIPT_OPTIONS_METADATA`. -/
structure EventMethodMeta where
  name : String
  eventType : Option AppsScriptEventType
  options : Option MethodOptions

/-- Embedding of `isString(controllerType) && controllerType.startsWith("appsscript")`. -/
def isAppsScriptType : Option String → Bool
  | some t => "appsscript".data.isPrefixOf t.data
  | none => false

/-- The inner method loop of `App.on` for one resolved controller: filter
by event kind and event filters, invoke each match inside its own
try/catch, collecting the invoked handlers and the logged errors in
order. -/
def runHandlers (invoke : ClassId → String → Except String Unit) (c : ClassId)
    (eventType : AppsScriptEventType) (event : RawEvent) :
    List EventMethodMeta → List (ClassId × String) × List String
  | [] => ([], [])
  | mm :: rest =>
    let tail := runHandlers invoke c eventType event rest
    if mm.eventType == some eventType then
      if checkEventFilters eventType event mm.options then
        match invoke c mm.name with
        | Except.ok _ => ((c, mm.name) :: tail.1, tail.2)
        | Except.error e => ((c, mm.name) :: tail.1, e :: tail.2)
      else tail
    else tail

/-- The controller loop of `App.on`: skip non-appsscript controllers,
resolve each appsscript controller (outside any try/catch — a resolution
error aborts the loop and propagates, reported in the fourth component),
then run its matched handlers.  Returns the final resolver state, the
invoked handlers, the logged handler errors, and the escaped exception if
any. -/
def appOn (env : ClassId → ClassDef) (ctype : ClassId → Option String)
    (emeths : ClassId → List EventMethodMeta) (fuel : Nat)
    (eventType : AppsScriptEventType) (event : RawEvent)
    (invoke : ClassId → String → Except String Unit) :
    List ClassId → DIState →
      DIState × List (ClassId × String) × List String × Option String
  | [], s => (s, [], [], none)
  | c :: rest, s =>
    if isAppsScriptType (ctype c) then
      match resolve env fuel s c with
      | (s1, Except.error e) => (s1, [], [], some e)
      | (s1, Except.ok _) =>
        let pair := runHandlers invoke c eventType event (emeths c)
        match appOn env ctype emeths fuel eventType event invoke rest s1 with
        | (s2, ex, lg, prop) => (s2, pair.1 ++ ex, pair.2 ++ lg, prop)
    else appOn env ctype emeths fuel eventType event invoke rest s

/-- The handlers `App.on` should reach for an event, per the dispatch
rules: every method of every appsscript controller whose event kind
matches and whose filters pass, in controller order then method order. -/
def matchedHandlers (ctype : ClassId → Option String)
    (emeths : ClassId → List EventMethodMeta)
    (eventType : AppsScriptEventType) (event : RawEvent) :
    List ClassId → List (ClassId × String)
  | [] => []
  | c :: rest =>
    (if isAppsScriptType (ctype c) then
      ((emeths c).filter fun mm =>
        mm.eventType == some eventType &&
          checkEventFilters eventType event mm.options).map fun mm => (c, mm.name)
    else []) ++ matchedHandlers ctype emeths eventType event rest

/-- The errors the invoked handlers throw, in invocation order. -/
def invokeErrors (invoke : ClassId → String → Except String Unit)
    (pairs : List (ClassId × String)) : List String :=
  pairs.filterMap fun pr =>
    match invoke pr.1 pr.2 with
    | Except.ok _ => none
    | Except.error e => some e

/-- Helper: `runHandlers` implements filter-map over the method list, and its
logged errors are exactly the thrown invocations. -/
theorem runHandlers_spec (invoke : ClassId → String → Except String Unit)
    (c : ClassId) (eventType : AppsScriptEventType) (event : RawEvent) :
    ∀ ms : List EventMethodMeta,
      (runHandlers invoke c eventType event ms).1 =
        ((ms.filter fun mm => mm.eventType == some eventType &&
          checkEventFilters eventType event mm.options).map fun mm => (c, mm.name)) ∧
      (runHandlers invoke c eventType event ms).2 =
        invokeErrors invoke
          ((ms.filter fun mm => mm.eventType == some eventType &&
            checkEventFilters eventType event mm.options).map fun mm => (c, mm.name)) := by
  intro ms
  induction ms with
  | nil => exact ⟨rfl, rfl⟩
  | cons mm rest ih =>
    cases het : (mm.eventType == some eventType) with
    | false =>
      have hcond : (mm.eventType == some eventType &&
          checkEventFilters eventType event mm.options) = false := by
        rw [het]
        rfl
      have hf : List.filter (fun mm => mm.eventType == some eventType &&
          checkEventFilters eventType event mm.options) (mm :: rest) =
          List.filter (fun mm => mm.eventType == some eventType &&
            checkEventFilters eventType event mm.options) rest := by
        rw [List.filter_cons]
        simp only [hcond, Bool.false_eq_true, if_false]
      have hr : runHandlers invoke c eventType event (mm :: rest) =
          runHandlers invoke c eventType event rest := by
        simp only [runHandlers, het, Bool.false_eq_true, if_false]
      rw [hr, hf]
      exact ih
    | true =>
      cases hfl : checkEventFilters eventType event mm.options with
      | false =>
        have hcond : (mm.eventType == some eventType &&
            checkEventFilters eventType event mm.options) = false := by
          rw [het, hfl]
          rfl
        have hf : List.filter (fun mm => mm.eventType == some eventType &&
            checkEventFilters eventType event mm.options) (mm :: rest) =
            List.filter (fun mm => mm.eventType == some eventType &&
              checkEventFilters eventType event mm.options) rest := by
          rw [List.filter_cons]
          simp only [hcond, Bool.false_eq_true, if_false]
        have hr : runHandlers invoke c eventType event (mm :: rest) =
            runHandlers invoke c eventType event rest := by
          simp only [runHandlers, het, hfl, if_true, Bool.false_eq_true, if_false]
        rw [hr, hf]
        exact ih
      | true =>
        have hcond : (mm.eventType == some eventType &&
            checkEventFilters eventType event mm.options) = true := by
          rw [het, hfl]
          rfl
        have hf : List.filter (fun mm => mm.eventType == some eventType &&
            checkEventFilters eventType event mm.options) (mm :: rest) =
            mm :: List.filter (fun mm => mm.eventType == some eventType &&
              checkEventFilters eventType event mm.options) rest := by
          rw [List.filter_cons]
          simp only [hcond, if_true]
        rw [hf]
        cases hinv : invoke c mm.name with
        | ok u =>
          have hr : runHandlers invoke c eventType event (mm :: rest) =
              ((c, mm.name) :: (runHandlers invoke c eventType event rest).1,
                (runHandlers invoke c eventType event rest).2) := by
            simp only [runHandlers, het, hfl, if_true, hinv]
          rw [hr]
          constructor
          · simp only [List.map_cons]
            rw [ih.1]
          · simp only [List.map_cons, invokeErrors, List.filterMap_cons, hinv]
            have h2 := ih.2
            simp only [invokeErrors] at h2
            exact h2
        | error e =>
          have hr : runHandlers invoke c eventType event (mm :: rest) =
              ((c, mm.name) :: (runHandlers invoke c eventType event rest).1,
                e :: (runHandlers invoke c eventType event rest).2) := by
            simp only [runHandlers, het, hfl, if_true, hinv]
          rw [hr]
          constructor
          · simp only [List.map_cons]
            rw [ih.1]
          · simp only [List.map_cons, invokeErrors, List.filterMap_cons, hinv]
            have h2 := ih.2
            simp only [invokeErrors] at h2
            rw [h2]

/-- Counterexample to claim C8 as stated: the resolution of an event
controller happens outside any try/catch in `App.on`, so a
`ResolutionError` raised there escapes the dispatch entry point — it is
neither logged-and-skipped nor invisible to the caller.  Concretely, one
registered appsscript controller with a missing constructor dependency
aborts the whole dispatch with the escaped error. -/
theorem appOn_resolution_error_counterexample :
    (appOn envMissing (fun _ => some "appsscript-sheets") (fun _ => []) 3
        AppsScriptEventType.EDIT
        { rangeA1 := none, formId := none, changeType := none }
        (fun _ _ => Except.ok ()) [0] emptyState).2.2.2 =
      some ("Could not resolve all dependencies for " ++ toString 0) ∧
    (appOn envMissing (fun _ => some "appsscript-sheets") (fun _ => []) 3
        AppsScriptEventType.EDIT
        { rangeA1 := none, formId := none, changeType := none }
        (fun _ _ => Except.ok ()) [0] emptyState).2.2.2 ≠ none := by
  refine ⟨rfl, ?_⟩
  intro h
  have h2 : (some ("Could not resolve all dependencies for " ++ toString 0) :
      Option String) = none := h
  exact Option.noConfusion h2

/-- Claim C8 (amended): exceptions thrown by matched handler invocations
are caught per handler — they are logged and do not prevent subsequent
handlers, and nothing escapes the dispatch; but an error raised while
*resolving* an event controller is not caught and escapes `App.on`.  The
theorem proves the first half: whenever no listed controller's resolution
throws, the dispatch finishes with no escaped exception, every matched
handler is invoked in order, and the log is exactly the thrown handler
invocations. -/
theorem appOn_handler_errors_swallowed (env : ClassId → ClassDef)
    (ctype : ClassId → Option String) (emeths : ClassId → List EventMethodMeta)
    (fuel : Nat) (eventType : AppsScriptEventType) (event : RawEvent)
    (invoke : ClassId → String → Except String Unit) :
    ∀ (ctrls : List ClassId) (s : DIState),
      (∀ st c, c ∈ ctrls → ∀ e, (resolve env fuel st c).2 ≠ Except.error e) →
      (appOn env ctype emeths fuel eventType event invoke ctrls s).2.2.2 = none ∧
      (appOn env ctype emeths fuel eventType event invoke ctrls s).2.1 =
        matchedHandlers ctype emeths eventType event ctrls ∧
      (appOn env ctype emeths fuel eventType event invoke ctrls s).2.2.1 =
        invokeErrors invoke (matchedHandlers ctype emeths eventType event ctrls) := by
  intro ctrls
  induction ctrls with
  | nil =>
    intro s hres
    exact ⟨rfl, rfl, rfl⟩
  | cons c rest ih =>
    intro s hres
    have hres' : ∀ st c2, c2 ∈ rest → ∀ e,
        (resolve env fuel st c2).2 ≠ Except.error e := by
      intro st c2 hc2 e
      exact hres st c2 (List.mem_cons_of_mem _ hc2) e
    cases has : isAppsScriptType (ctype c) with
    | false =>
      have happ : appOn env ctype emeths fuel eventType event invoke (c :: rest) s =
          appOn env ctype emeths fuel eventType event invoke rest s := by
        simp only [appOn, has, Bool.false_eq_true, if_false]
      have hmh : matchedHandlers ctype emeths eventType event (c :: rest) =
          matchedHandlers ctype emeths eventType event rest := by
        simp only [matchedHandlers, has, Bool.false_eq_true, if_false,
          List.nil_append]
      rw [happ, hmh]
      exact ih s hres'
    | true =>
      cases hcall : resolve env fuel s c with
      | mk s1 r =>
        cases r with
        | error e =>
          have : (resolve env fuel s c).2 = Except.error e := by
            rw [hcall]
          exact absurd this (hres s c (List.mem_cons_self _ _) e)
        | ok j =>
          have happ : appOn env ctype emeths fuel eventType event invoke (c :: rest) s =
              ((appOn env ctype emeths fuel eventType event invoke rest s1).1,
                (runHandlers invoke c eventType event (emeths c)).1 ++
                  (appOn env ctype emeths fuel eventType event invoke rest s1).2.1,
                (runHandlers invoke c eventType event (emeths c)).2 ++
                  (appOn env ctype emeths fuel eventType event invoke rest s1).2.2.1,
                (appOn env ctype emeths fuel eventType event invoke rest s1).2.2.2) := by
            simp only [appOn, has, if_true, hcall]
          have hmh : matchedHandlers ctype emeths eventType event (c :: rest) =
              (((emeths c).filter fun mm =>
                mm.eventType == some eventType &&
                  checkEventFilters eventType event mm.options).map
                    fun mm => (c, mm.name)) ++
                matchedHandlers ctype emeths eventType event rest := by
            simp only [matchedHandlers, has, if_true]
          have hrest := ih s1 hres'
          have hrun := runHandlers_spec invoke c eventType event (emeths c)
          rw [happ, hmh]
          refine ⟨hrest.1, ?_, ?_⟩
          · rw [hrun.1, hrest.2.1]
          · rw [hrun.2, hrest.2.2]
            simp only [invokeErrors, List.filterMap_append]

/-- A dependency-free controller class, for the C8 witness. -/
def leafCtrl : ClassDef :=
  { paramTypes := [], injectTokens := [], isCtrl := true, isInj := false }

/-- One `@Edit()`-decorated method with no filter options. -/
def editMeta : EventMethodMeta :=
  { name := "onEditHandler", eventType := some AppsScriptEventType.EDIT, options := none }

/-- A bare edit event carrying none of the filterable fields. -/
def editEvent0 : RawEvent :=
  { rangeA1 := none, formId := none, changeType := none }

/-- Handlers for the C8 witness: controller 1's handler throws, every
other handler returns normally. -/
def invokeBoom : ClassId → String → Except String Unit := fun c _ =>
  if c = 1 then Except.error "Error: boom" else Except.ok ()

/-- Witness for C8 (amended): two appsscript controllers with one matched
handler each; the first handler throws.  The dispatch still reaches the
second handler, logs exactly the thrown error, and lets nothing escape. -/
theorem appOn_handler_errors_swallowed_witness :
    (appOn (fun _ => leafCtrl) (fun _ => some "appsscript-sheets")
        (fun _ => [editMeta]) 1 AppsScriptEventType.EDIT editEvent0 invokeBoom
        [1, 2] emptyState).2.2.2 = none ∧
    (appOn (fun _ => leafCtrl) (fun _ => some "appsscript-sheets")
        (fun _ => [editMeta]) 1 AppsScriptEventType.EDIT editEvent0 invokeBoom
        [1, 2] emptyState).2.1 = [(1, "onEditHandler"), (2, "onEditHandler")] ∧
    (appOn (fun _ => leafCtrl) (fun _ => some "appsscript-sheets")
        (fun _ => [editMeta]) 1 AppsScriptEventType.EDIT editEvent0 invokeBoom
        [1, 2] emptyState).2.2.1 = ["Error: boom"] := by
  have hsafe : ∀ (st : DIState) (c : ClassId), c ∈ [1, 2] → ∀ e,
      (resolve (fun _ => leafCtrl) 1 st c).2 ≠ Except.error e := by
    intro st c _ e h
    cases hcc : cacheLookup st c with
    | some j =>
      rw [resolve_succ_hit (fun _ => leafCtrl) 0 st c j hcc] at h
      exact Except.noConfusion h
    | none =>
      rw [resolve_miss_ok_eq (fun _ => leafCtrl) 0 st c st [] hcc rfl] at h
      simp only [List.any_nil, Bool.false_eq_true, if_false, leafCtrl, if_true] at h
      exact Except.noConfusion h
  have h := appOn_handler_errors_swallowed (fun _ => leafCtrl)
      (fun _ => some "appsscript-sheets") (fun _ => [editMeta]) 1
      AppsScriptEventType.EDIT editEvent0 invokeBoom [1, 2] emptyState hsafe
  refine ⟨h.1, ?_, ?_⟩
  · rw [h.2.1]
    rfl
  · rw [h.2.2]
    rfl

/-! ## The App singleton (constructor, `App.create`, `RouterExplorer`)

`App.instance` is embedded as an explicit `Option AppState` threaded
through the constructor; the constructor returns the updated static field
together with the object the `new` expression evaluates to (in JS, a
constructor that returns an object makes `new` yield that object).  The
external `normalize` and `decodeURI` are function parameters. -/

/-- What the route-table builder and constructor read about a class:
`isFunctionLike`, the `CONTROLLER_WATERMARK`, the
`CONTROLLER_TYPE_METADATA`, the declared `basePath`, and the own methods
carrying path/method route facts. -/
structure HttpMethodMeta where
  name : String
  routePath : Option String
  reqMethod : Option RequestMethod

structure AppClassMeta where
  functionLike : Bool
  ctrlWatermark : Bool
  controllerType : Option String
  basePath : Option String
  httpMethods : List HttpMethodMeta

/-- Embedding of `RouterExplorer.explore`: for every registered class
whose controller type is exactly `"http"`, take `basePath || "/"`, and for
every own method carrying a truthy path and a method fact, append a Route
Record with path `decodeURI(normalize("/" + basePath + "/" + routePath))`.
Order follows controller registration order, then method order. -/
def explore (meta : ClassId → AppClassMeta) (normalize decode : String → String)
    (controllers : List ClassId) : List RouteMetadata :=
  (controllers.map fun c =>
    if (meta c).controllerType == some "http" then
      let basePath :=
        match (meta c).basePath with
        | some b => if b == "" then "/" else b
        | none => "/"
      (meta c).httpMethods.filterMap fun mm =>
        match mm.routePath, mm.reqMethod with
        | some rp, some rm =>
          if rp == "" then none
          else some { method := rm
                      path := decode (normalize ("/" ++ basePath ++ "/" ++ rp))
                      handler := mm.name
                      controller := c }
        | _, _ => none
    else []).flatten

/-- Embedding of `Map` key insertion order: re-inserting an existing key keeps its
position. -/
def insertKey (l : List ClassId) (c : ClassId) : List ClassId :=
  if l.contains c then l else l ++ [c]

/-- The `AppConfig` handed to the constructor. -/
structure AppConfig where
  controllers : Option (List ClassId)
  providers : Option (List ClassId)

/-- The fields of one `App` object. -/
structure AppState where
  controllers : List ClassId
  providers : List ClassId
  routes : List RouteMetadata
deriving DecidableEq, Repr

/-- Embedding of `new App(config)`: if the static instance exists it is
returned unchanged and nothing else happens; otherwise the function-like
and watermarked controllers are registered (in order, `Map`-deduplicated),
the route table is built, the function-like providers are registered, and
the new object becomes the static instance. -/
def appCtor (meta : ClassId → AppClassMeta) (normalize decode : String → String)
    (inst : Option AppState) (config : AppConfig) : Option AppState × AppState :=
  match inst with
  | some app => (some app, app)
  | none =>
    let ctrls := ((config.controllers.getD []).filter fun c =>
      (meta c).functionLike && (meta c).ctrlWatermark).foldl insertKey []
    let routes := explore meta normalize decode ctrls
    let provs := ((config.providers.getD []).filter fun c =>
      (meta c).functionLike).foldl insertKey []
    let app : AppState := { controllers := ctrls, providers := provs, routes := routes }
    (some app, app)

/-- Embedding of `App.create(config)`: `new App(config ?? {})`. -/
def appCreate (meta : ClassId → AppClassMeta) (normalize decode : String → String)
    (inst : Option AppState) (config : Option AppConfig) :
    Option AppState × AppState :=
  appCtor meta normalize decode inst
    (config.getD { controllers := none, providers := none })

/-- Claim C10: once an `App` instance exists, every later construction and
every `App.create` call — for any configuration whatsoever — returns that
same existing instance and leaves the static state unchanged: no
controllers or providers are registered and the route table is exactly the
existing one.  In particular the object returned is independent of the
configuration passed. -/
theorem app_singleton (meta : ClassId → AppClassMeta)
    (normalize decode : String → String) (app : AppState) :
    (∀ config, appCtor meta normalize decode (some app) config = (some app, app)) ∧
    (∀ config, appCreate meta normalize decode (some app) config = (some app, app)) ∧
    (∀ config1 config2,
      (appCtor meta normalize decode (some app) config1).2 =
        (appCtor meta normalize decode (some app) config2).2) ∧
    (∀ config,
      ((appCtor meta normalize decode (some app) config).2).controllers =
        app.controllers ∧
      ((appCtor meta normalize decode (some app) config).2).providers =
        app.providers ∧
      ((appCtor meta normalize decode (some app) config).2).routes = app.routes) := by
  refine ⟨fun config => rfl, fun config => rfl, fun c1 c2 => rfl,
    fun config => ⟨rfl, rfl, rfl⟩⟩

end Boot
